import Mathlib

/-!
Verification of the FTP tree viewer (`ftp_tree_viewer.py`).

The Python source is shallowly embedded here:

* Python strings are Lean `String`s; low-level operations (`str.split`,
  negative indexing, `os.path.join`, `os.path.dirname`/`basename`,
  `fnmatch.fnmatch`, `int(...)`) are modelled as executable Lean functions
  over `List Char`.
* The FTP connection (an external collaborator in the spec) is modelled as a
  concrete server tree `RNode` plus a current-directory path and a log of
  network operations (`Ftp`).  `cwd` failures are `error_perm` (FTP code 550),
  which is how `ftplib` reports both missing paths and denied access.
* Exceptions are explicit: functions return an `Option PyErr` component;
  `none` means the Python function returned normally, `some e` means an
  exception `e` propagated out of it.  Recursive functions take a fuel
  argument; exhausted fuel yields the artificial error `PyErr.fuelErr`,
  which never occurs in a run that models a terminating Python execution.
* Printing is modelled by returning the list of printed lines.
-/

/-- Python exceptions that can propagate through the embedded code, plus the
artificial `fuelErr` marking fuel exhaustion of the embedding. -/
inductive PyErr where
  | permErr
  | indexErr
  | valueErr
  | fuelErr
  deriving DecidableEq, Repr

/-- One request sent over the FTP control connection. -/
inductive NetOp where
  | cwdOp (target : String)
  | listOp (cmd : String)
  | retrOp (target : String)
  | pwdOp
  deriving DecidableEq, Repr

/-- Split a character list on every occurrence of `sep`, keeping empty pieces:
the model of Python `str.split(sep)` for a one-character separator. -/
def splitCharOn (sep : Char) : List Char → List (List Char)
  | [] => [[]]
  | c :: rest =>
    let r := splitCharOn sep rest
    if c = sep then [] :: r else (c :: r.headD []) :: r.tail

/-- Whitespace splitter accumulator: models Python `str.split()` with no
arguments (runs of whitespace separate tokens, no empty tokens). -/
def wsSplitAux : List Char → List Char → List (List Char)
  | [], [] => []
  | [], acc => [acc.reverse]
  | c :: rest, acc =>
    if c.isWhitespace then
      (if acc = [] then wsSplitAux rest [] else acc.reverse :: wsSplitAux rest [])
    else wsSplitAux rest (c :: acc)

/-- Model of Python `line.split()`: split on whitespace runs, no empties. -/
def pySplitWs (s : String) : List String :=
  (wsSplitAux s.data []).map (⟨·⟩)

/-- Model of Python `s.startswith(pre)`. -/
def pyStartsWith (s pre : String) : Bool :=
  pre.data.isPrefixOf s.data

/-- Model of Python `s.endswith(suf)`. -/
def pyEndsWith (s suf : String) : Bool :=
  suf.data.isSuffixOf s.data

/-- Model of Python `s[i]` for `str`: supports negative indices, `none` models
an `IndexError`. -/
def pyCharAt (s : String) (i : Int) : Option Char :=
  let n : Int := s.data.length
  let j : Int := if i < 0 then i + n else i
  if 0 ≤ j ∧ j < n then some (s.data.getD j.toNat ' ') else none

/-- Render an absolute remote path (list of components) the way `ftp.pwd()`
reports it: `/a/b`, and `/` for the root. -/
def joinComps : List (List Char) → List Char
  | [] => []
  | c :: rest => '/' :: (c ++ joinComps rest)

/-- Absolute path of the current remote directory, as the server reports it. -/
def renderPath (p : List (List Char)) : String :=
  if p.isEmpty then "/" else ⟨joinComps p⟩

/-- Fold raw path components into an absolute path: empty and `.` components
are skipped, `..` pops one component, anything else descends. -/
def resolveComps (start : List (List Char)) (comps : List (List Char)) : List (List Char) :=
  comps.foldl
    (fun acc c =>
      if c = [] ∨ c = ['.'] then acc
      else if c = ['.', '.'] then acc.dropLast
      else acc ++ [c])
    start

/-- Resolve a path argument of `ftp.cwd` against the current directory:
a leading `/` makes it absolute. -/
def resolvePath (cwd : List (List Char)) (p : String) : List (List Char) :=
  let cs := p.data
  let start := if cs.headD ' ' = '/' then [] else cwd
  resolveComps start (splitCharOn '/' cs)

/-- A path component that round-trips through rendering: nonempty, free of
`/`, and not one of the special components `.` and `..`. -/
def cleanComp (c : List Char) : Prop :=
  c ≠ [] ∧ '/' ∉ c ∧ c ≠ ['.'] ∧ c ≠ ['.', '.']

instance (c : List Char) : Decidable (cleanComp c) := by
  unfold cleanComp; infer_instance

/-- Every component of the path round-trips through rendering. -/
def cleanPath (p : List (List Char)) : Prop := ∀ c ∈ p, cleanComp c

instance (p : List (List Char)) : Decidable (cleanPath p) := by
  unfold cleanPath; infer_instance

/-- A node of the remote server's file tree.  A directory carries the raw
text lines it returns for `LIST -a` and for `LIST`, and its child nodes;
`enterable` is whether `CWD` into it succeeds, `readable` whether `RETR`
succeeds. -/
inductive RNode where
  | file (readable : Bool) (content : List Nat) : RNode
  | dir (enterable : Bool) (listAll listPlain : List String) (children : List (String × RNode)) : RNode

/-- Look up a directly named child of a directory. -/
def findChild : List (String × RNode) → List Char → Option RNode
  | [], _ => none
  | (nm, n) :: rest, c => if nm.data = c then some n else findChild rest c

/-- Look up a node by absolute path. -/
def lookupNode : RNode → List (List Char) → Option RNode
  | n, [] => some n
  | RNode.file _ _, _ :: _ => none
  | RNode.dir _ _ _ ch, c :: rest =>
    match findChild ch c with
    | some n => lookupNode n rest
    | none => none

/-- State of the FTP connection: the (static) server tree, the current remote
directory, and the log of network requests issued so far. -/
structure Ftp where
  root : RNode
  cwdPath : List (List Char)
  log : List NetOp

/-- Model of `ftp.cwd(p)`: resolve `p`, succeed only on an enterable
directory; any failure is `error_perm` (FTP 550). -/
def ftpCwd (s : Ftp) (p : String) : Ftp × Option PyErr :=
  let s1 := { s with log := s.log ++ [NetOp.cwdOp p] }
  let tgt := resolvePath s.cwdPath p
  match lookupNode s.root tgt with
  | some (RNode.dir true _ _ _) => ({ s1 with cwdPath := tgt }, none)
  | _ => (s1, some PyErr.permErr)

/-- Model of `ftp.retrlines('LIST -a' / 'LIST', …)`: returns the raw listing
lines of the current directory. -/
def ftpList (s : Ftp) (showAll : Bool) : Ftp × Except PyErr (List String) :=
  let cmd := if showAll then "LIST -a" else "LIST"
  let s1 := { s with log := s.log ++ [NetOp.listOp cmd] }
  match lookupNode s.root s.cwdPath with
  | some (RNode.dir _ la lp _) => (s1, Except.ok (if showAll then la else lp))
  | _ => (s1, Except.error PyErr.permErr)

/-- Model of `ftp.retrbinary('RETR p', …)`: the bytes of a readable file. -/
def ftpRetr (s : Ftp) (p : String) : Ftp × Except PyErr (List Nat) :=
  let s1 := { s with log := s.log ++ [NetOp.retrOp p] }
  match lookupNode s.root (resolvePath s.cwdPath p) with
  | some (RNode.file true content) => (s1, Except.ok content)
  | _ => (s1, Except.error PyErr.permErr)

/-- Model of `ftp.pwd()`. -/
def ftpPwd (s : Ftp) : Ftp × String :=
  ({ s with log := s.log ++ [NetOp.pwdOp] }, renderPath s.cwdPath)

/-- Flags of the `list` subcommand, passed unchanged to `ftp_tree`
(`--perms --hidden --error-ignore --only-dir --world-writable`). -/
structure TreeCfg where
  showPerms : Bool
  showHidden : Bool
  errIgnore : Bool
  onlyDirs : Bool
  worldWritable : Bool
  deriving DecidableEq, Repr

/-- The `world_writable` skip test of `ftp_tree` (source line 33):
`permissions[-2] != 'w'` skips the entry; an out-of-range index is an
`IndexError`. -/
def survivesWW (cfg : TreeCfg) (perms : String) : Except PyErr Bool :=
  if cfg.worldWritable then
    match pyCharAt perms (-2) with
    | none => Except.error PyErr.indexErr
    | some c => Except.ok (c = 'w')
  else Except.ok true

/-- The three `continue` filters of the `ftp_tree` loop (source lines 29-34),
in source order: hidden check, `only_dirs` check on `permissions[0]`,
`world_writable` check on `permissions[-2]`.  `ok false` means the entry is
skipped, `ok true` that it is printed. -/
def survives (cfg : TreeCfg) (perms name : String) : Except PyErr Bool :=
  if ¬cfg.showHidden ∧ pyStartsWith name "." then Except.ok false
  else if cfg.onlyDirs then
    match pyCharAt perms 0 with
    | none => Except.error PyErr.indexErr
    | some c => if c ≠ 'd' then Except.ok false else survivesWW cfg perms
  else survivesWW cfg perms

/-- The recursion guard of `ftp_tree` (source line 41):
`'.' not in short_name and permissions[0] == 'd' and not world_writable`,
with Python's short-circuit evaluation. -/
def descends (cfg : TreeCfg) (perms shortName : String) : Except PyErr Bool :=
  if shortName.data.contains '.' then Except.ok false
  else
    match pyCharAt perms 0 with
    | none => Except.error PyErr.indexErr
    | some c => Except.ok (c = 'd' && !cfg.worldWritable)

/-- Depth-exhaustion test of `ftp_tree` (source line 7):
`recursion_depth is not None and recursion_depth < 1`. -/
def depthExhausted (rdepth : Option Int) : Bool :=
  match rdepth with
  | some d => decide (d < 1)
  | none => false

/-- Descent permission of `ftp_tree` (source line 42):
`recursion_depth is None or recursion_depth > 1`. -/
def canDescend (rdepth : Option Int) : Bool :=
  match rdepth with
  | some d => decide (1 < d)
  | none => true

/-- Depth passed to a child rendering (source line 45):
`None if recursion_depth is None else recursion_depth - 1`. -/
def childDepth (rdepth : Option Int) : Option Int :=
  match rdepth with
  | none => none
  | some d => some (d - 1)

/-- Model of `name.split('/')[-1]` (source line 35). -/
def shortNameOf (name : String) : String :=
  ⟨(splitCharOn '/' name.data).getLastD []⟩

/-- One printed entry line of `ftp_tree` (source lines 36-40): indent, then
the permission field if `--perms`, then the corner or tee glyph, then the
short name. -/
def renderLine (cfg : TreeCfg) (indent : String) (isLast : Bool) (perms name : String) : String :=
  let short := shortNameOf name
  let glyph := if isLast then "└── " else "├── "
  let line0 := glyph ++ short
  let line1 := if cfg.showPerms then perms ++ " " ++ line0 else line0
  indent ++ line1

/-- Stable insertion into a sorted list: the new element goes before the
first element it compares `le` to, so earlier elements win ties. -/
def insStable {α : Type} (le : α → α → Bool) (x : α) : List α → List α
  | [] => [x]
  | y :: ys => if le x y then x :: y :: ys else y :: insStable le x ys

/-- Stable sort (insertion sort).  Python's `sorted` is stable, and for a
total preorder every stable sorting algorithm produces the same list, so
this models `sorted`. -/
def pySorted {α : Type} (le : α → α → Bool) : List α → List α
  | [] => []
  | x :: xs => insStable le x (pySorted le xs)

/-- Lexicographic `≤` on code points: how Python compares `str` values. -/
def pyStrLe : List Char → List Char → Bool
  | [], _ => true
  | _ :: _, [] => false
  | a :: as, b :: bs =>
    if a.toNat < b.toNat then true
    else if b.toNat < a.toNat then false
    else pyStrLe as bs

/-- Model of `sorted(items, key=lambda x: x[-1])` (source line 25): stable
sort of the split lines by their last whitespace-separated field. -/
def sortItems (items : List (List String)) : List (List String) :=
  pySorted (fun a b => pyStrLe (a.getLastD "").data (b.getLastD "").data) items

/-- Rendering of an exception by `str(e)`. -/
def pyErrStr : PyErr → String
  | PyErr.permErr => "550 error"
  | PyErr.indexErr => "index out of range"
  | PyErr.valueErr => "not enough values to unpack"
  | PyErr.fuelErr => "fuel exhausted"

/-- The `for index, item in enumerate(items)` loop of `ftp_tree` (source
lines 27-46), abstracted over the recursive call `rec` (which `ftp_tree`
instantiates with itself at the next fuel level).  `idx` is the enumeration
index of the head of `items`, `last` the index of the final entry of the
full sorted list.  An item with fewer than 9 fields fails the 9-place tuple
unpacking of line 28 (`ValueError`), which the source does not catch. -/
def treeLoopWith (rec : Ftp → String → String → Option Int → Ftp × List String × Option PyErr)
    (s : Ftp) (items : List (List String)) (idx last : Nat)
    (directory indent : String) (rdepth : Option Int) (cfg : TreeCfg) :
    Ftp × List String × Option PyErr :=
  match items with
  | [] => (s, [], none)
  | it :: rest =>
    match it with
    | perms :: _ :: _ :: _ :: _ :: _ :: _ :: _ :: name :: _ =>
      match survives cfg perms name with
      | Except.error e => (s, [], some e)
      | Except.ok false => treeLoopWith rec s rest (idx + 1) last directory indent rdepth cfg
      | Except.ok true =>
        let out0 := [renderLine cfg indent (idx == last) perms name]
        match descends cfg perms (shortNameOf name) with
        | Except.error e => (s, out0, some e)
        | Except.ok false =>
          let r := treeLoopWith rec s rest (idx + 1) last directory indent rdepth cfg
          (r.1, out0 ++ r.2.1, r.2.2)
        | Except.ok true =>
          if canDescend rdepth then
            let newIndent := indent ++ (if idx == last then "    " else "│   ")
            let newDir := if directory ≠ "/" then directory ++ "/" ++ shortNameOf name
                          else "/" ++ shortNameOf name
            let newDepth := childDepth rdepth
            let rc := rec s newDir newIndent newDepth
            match rc.2.2 with
            | some e => (rc.1, out0 ++ rc.2.1, some e)
            | none =>
              let r := treeLoopWith rec rc.1 rest (idx + 1) last directory indent rdepth cfg
              (r.1, out0 ++ rc.2.1 ++ r.2.1, r.2.2)
          else
            let r := treeLoopWith rec s rest (idx + 1) last directory indent rdepth cfg
            (r.1, out0 ++ r.2.1, r.2.2)
    | _ => (s, [], some PyErr.valueErr)

/-- Shallow embedding of `ftp_tree` (source lines 6-46).  Returns the state
after the call, the printed lines, and `some e` when an exception `e`
propagates out of the call (lines already printed are kept). -/
def ftp_tree (fuel : Nat) (s : Ftp) (directory indent : String)
    (rdepth : Option Int) (cfg : TreeCfg) : Ftp × List String × Option PyErr :=
  match fuel with
  | 0 => (s, [], some PyErr.fuelErr)
  | fuel + 1 =>
    if depthExhausted rdepth then (s, [], none)
    else
      match ftpCwd s directory with
      | (s1, some PyErr.permErr) =>
        (s1, if cfg.errIgnore then []
             else [indent ++ "└── Access denied for listing directory: " ++ directory], none)
      | (s1, some e) =>
        (s1, if cfg.errIgnore then []
             else [indent ++ "└── Error accessing directory: " ++ directory,
                   indent ++ "└── " ++ pyErrStr e], none)
      | (s1, none) =>
        match ftpList s1 cfg.showHidden with
        | (s2, Except.error PyErr.permErr) =>
          (s2, if cfg.errIgnore then []
               else [indent ++ "└── Access denied for listing directory: " ++ directory], none)
        | (s2, Except.error e) =>
          (s2, if cfg.errIgnore then []
               else [indent ++ "└── Error accessing directory: " ++ directory,
                     indent ++ "└── " ++ pyErrStr e], none)
        | (s2, Except.ok raw) =>
          let split := raw.map pySplitWs
          if split.any (fun it => it.isEmpty) then (s2, [], some PyErr.indexErr)
          else
            let items := sortItems split
            treeLoopWith (fun s d i rd => ftp_tree fuel s d i rd cfg)
              s2 items 0 (items.length - 1) directory indent rdepth cfg

/-- The `ftp_tree` loop at a given fuel level: `treeLoopWith` whose
recursive descents call `ftp_tree fuel`. -/
def treeLoop (fuel : Nat) (s : Ftp) (items : List (List String)) (idx last : Nat)
    (directory indent : String) (rdepth : Option Int) (cfg : TreeCfg) :
    Ftp × List String × Option PyErr :=
  treeLoopWith (fun s d i rd => ftp_tree fuel s d i rd cfg)
    s items idx last directory indent rdepth cfg

/-- The `ftp_tree` loop with the recursion branch removed: what a single
level of rendering prints.  Used to state the depth-1 contract: the guard
of source line 42 is `1 > 1 = False` at `remainingDepth = 1`, so the loop
below is what `ftp_tree` executes there. -/
def treeLoopNoRec (s : Ftp) (items : List (List String)) (idx last : Nat)
    (indent : String) (cfg : TreeCfg) : Ftp × List String × Option PyErr :=
  match items with
  | [] => (s, [], none)
  | it :: rest =>
    match it with
    | perms :: _ :: _ :: _ :: _ :: _ :: _ :: _ :: name :: _ =>
      match survives cfg perms name with
      | Except.error e => (s, [], some e)
      | Except.ok false => treeLoopNoRec s rest (idx + 1) last indent cfg
      | Except.ok true =>
        let out0 := [renderLine cfg indent (idx == last) perms name]
        match descends cfg perms (shortNameOf name) with
        | Except.error e => (s, out0, some e)
        | Except.ok _ =>
          let r := treeLoopNoRec s rest (idx + 1) last indent cfg
          (r.1, out0 ++ r.2.1, r.2.2)
    | _ => (s, [], some PyErr.valueErr)

/-- Single-level rendering: `ftp_tree` without any descent.  `ftp_tree` at
`remainingDepth = 1` is proved equal to this function. -/
def ftpTreeNoRec (s : Ftp) (directory indent : String) (cfg : TreeCfg) :
    Ftp × List String × Option PyErr :=
  match ftpCwd s directory with
  | (s1, some PyErr.permErr) =>
    (s1, if cfg.errIgnore then []
         else [indent ++ "└── Access denied for listing directory: " ++ directory], none)
  | (s1, some e) =>
    (s1, if cfg.errIgnore then []
         else [indent ++ "└── Error accessing directory: " ++ directory,
               indent ++ "└── " ++ pyErrStr e], none)
  | (s1, none) =>
    match ftpList s1 cfg.showHidden with
    | (s2, Except.error PyErr.permErr) =>
      (s2, if cfg.errIgnore then []
           else [indent ++ "└── Access denied for listing directory: " ++ directory], none)
    | (s2, Except.error e) =>
      (s2, if cfg.errIgnore then []
           else [indent ++ "└── Error accessing directory: " ++ directory,
                 indent ++ "└── " ++ pyErrStr e], none)
    | (s2, Except.ok raw) =>
      let split := raw.map pySplitWs
      if split.any (fun it => it.isEmpty) then (s2, [], some PyErr.indexErr)
      else
        let items := sortItems split
        treeLoopNoRec s2 items 0 (items.length - 1) indent cfg

/-- The `list` subcommand dispatch (source lines 173-176): `main` calls
`ftp_tree` on `args.directory` with the default indent `''` and
`recursion_depth = args.recursion`. -/
def listCommand (fuel : Nat) (s : Ftp) (directory : String) (recursion : Option Int)
    (cfg : TreeCfg) : Ftp × List String × Option PyErr :=
  ftp_tree fuel s directory "" recursion cfg

/-- Model of `os.path.basename` for POSIX paths: the part after the final
slash. -/
def pyBasename (p : String) : String :=
  ⟨(splitCharOn '/' p.data).getLastD []⟩

/-- Trailing-slash stripper used by `os.path.dirname`. -/
def dropTrailingSlashes (l : List Char) : List Char :=
  (l.reverse.dropWhile (fun c => c = '/')).reverse

/-- Model of `os.path.dirname` for POSIX paths: everything before the final
slash, with trailing slashes stripped unless the head is all slashes. -/
def pyDirname (p : String) : String :=
  let cs := p.data
  let tailLen := ((splitCharOn '/' cs).getLastD []).length
  let head := cs.take (cs.length - tailLen)
  if head ≠ [] ∧ head.any (fun c => c ≠ '/') then ⟨dropTrailingSlashes head⟩ else ⟨head⟩

/-- Model of the two-argument `os.path.join` for POSIX paths: an absolute
second argument discards the first. -/
def pyJoin2 (a b : String) : String :=
  if pyStartsWith b "/" then b
  else if a = "" ∨ pyEndsWith a "/" then a ++ b
  else a ++ "/" ++ b

/-- Scanner for the closing `]` of an `fnmatch` character class: the class
body and the remainder of the pattern. -/
def findClose : List Char → Option (List Char × List Char)
  | [] => none
  | c :: r => if c = ']' then some ([], r) else (findClose r).map (fun x => (c :: x.1, x.2))

/-- Split a character class off the head of a glob pattern (the part after a
`[`): negation flag, class body, and the rest of the pattern.  Mirrors
`fnmatch.translate`: a `]` directly after `[` or `[!` is a literal member of
the class; `none` when no closing `]` exists. -/
def splitClass (ps : List Char) : Option (Bool × List Char × List Char) :=
  let neg := ps.headD ' ' = '!'
  let t := if neg then ps.tail else ps
  if t.headD ' ' = ']' then (findClose t.tail).map (fun x => (neg, ']' :: x.1, x.2))
  else (findClose t).map (fun x => (neg, x.1, x.2))

/-- Membership of a character in an `fnmatch` class body, with `a-z` ranges. -/
def classHas : List Char → Char → Bool
  | a :: '-' :: b :: rest, c =>
    if a ≤ c ∧ c ≤ b then true else classHas rest c
  | a :: rest, c => if a = c then true else classHas rest c
  | [], _ => false

theorem findClose_length (l : List Char) :
    ∀ a b, findClose l = some (a, b) → b.length < l.length := by
  induction l with
  | nil => intro a b h; simp [findClose] at h
  | cons c r ih =>
    intro a b h
    rw [findClose] at h
    by_cases hc : c = ']'
    · rw [if_pos hc] at h
      simp only [Option.some.injEq, Prod.mk.injEq] at h
      obtain ⟨-, h2⟩ := h
      subst h2
      simp
    · rw [if_neg hc] at h
      rcases hfc : findClose r with _ | ⟨x, y⟩
      · rw [hfc] at h; simp at h
      · rw [hfc] at h
        simp only [Option.map_some', Option.some.injEq, Prod.mk.injEq] at h
        obtain ⟨h1, h2⟩ := h
        subst h2
        have := ih x y hfc
        simp
        omega

theorem splitClass_length (ps : List Char) (n : Bool) (cls rest : List Char)
    (h : splitClass ps = some (n, cls, rest)) : rest.length ≤ ps.length := by
  unfold splitClass at h
  dsimp only at h
  set t := if ps.headD ' ' = '!' then ps.tail else ps with ht
  have htlen : t.length ≤ ps.length := by
    rw [ht]
    split
    · simp [List.length_tail]
    · exact le_rfl
  split at h
  · rcases hfc : findClose t.tail with _ | ⟨x, y⟩
    · rw [hfc] at h; simp at h
    · rw [hfc] at h
      simp only [Option.map_some', Option.some.injEq, Prod.mk.injEq] at h
      obtain ⟨-, -, h3⟩ := h
      subst h3
      have h1 := findClose_length t.tail x y hfc
      have h2 : t.tail.length ≤ t.length := by simp [List.length_tail]
      omega
  · rcases hfc : findClose t with _ | ⟨x, y⟩
    · rw [hfc] at h; simp at h
    · rw [hfc] at h
      simp only [Option.map_some', Option.some.injEq, Prod.mk.injEq] at h
      obtain ⟨-, -, h3⟩ := h
      subst h3
      have h1 := findClose_length t x y hfc
      omega

/-- Fuelled core of the `fnmatch` model.  Each step consumes at least one
pattern or subject character, so `pat.length + s.length + 1` fuel always
suffices; the `fuel = 0` answer is never reached from `globMatch`. -/
def globMatchF (fuel : Nat) (pat s : List Char) : Bool :=
  match fuel with
  | 0 => false
  | fuel + 1 =>
    match pat, s with
    | [], [] => true
    | [], _ :: _ => false
    | '*' :: ps, [] => globMatchF fuel ps []
    | '*' :: ps, c :: cs => globMatchF fuel ps (c :: cs) || globMatchF fuel ('*' :: ps) cs
    | '?' :: _, [] => false
    | '?' :: ps, _ :: cs => globMatchF fuel ps cs
    | p :: ps, s =>
      if p = '[' then
        match splitClass ps with
        | some (neg, cls, rest) =>
          match s with
          | [] => false
          | c :: cs => (neg != classHas cls c) && globMatchF fuel rest cs
        | none =>
          match s with
          | [] => false
          | c :: cs => (p = c) && globMatchF fuel ps cs
      else
        match s with
        | [] => false
        | c :: cs => (p = c) && globMatchF fuel ps cs

/-- Model of `fnmatch.fnmatch(s, pat)` (case-sensitive, as on POSIX):
shell-style matching with `*`, `?` and `[...]` classes (ranges, `!`
negation, literal `]` first, unterminated `[` taken literally).  First
argument is the pattern, second the candidate name. -/
def globMatch (pat s : List Char) : Bool :=
  globMatchF (pat.length + s.length + 1) pat s

/-- The local filesystem: directories created by `os.makedirs` and files
written by `open(..., 'wb')`, keyed by absolute path. -/
structure LocalFS where
  dirs : List String
  files : List (String × List Nat)
  deriving DecidableEq, Repr

/-- Model of `os.makedirs(p, exist_ok=True)`. -/
def mkdirL (l : LocalFS) (p : String) : LocalFS :=
  if l.dirs.contains p then l else { l with dirs := p :: l.dirs }

/-- Model of writing `content` to `open(p, 'wb')`: truncates and replaces
whatever was at `p`. -/
def writeL (l : LocalFS) (p : String) (content : List Nat) : LocalFS :=
  { l with files := (p, content) :: l.files.filter (fun q => q.1 ≠ p) }

/-- Content of the local file at `p`, if any. -/
def lookupL (l : LocalFS) (p : String) : Option (List Nat) :=
  (l.files.find? (fun q => q.1 == p)).map (·.2)

/-- The directory-vs-file probe of `download_files` (source lines 95-100):
`cwd` into the entry and `cwd` back; `error_perm` from either request means
"file", success of both means "directory".  Any other exception would
propagate (`error e`). -/
def classifyProbe (s : Ftp) (item : String) : Ftp × Except PyErr Bool :=
  match ftpCwd s item with
  | (s1, some PyErr.permErr) => (s1, Except.ok false)
  | (s1, some e) => (s1, Except.error e)
  | (s1, none) =>
    match ftpCwd s1 ".." with
    | (s2, some PyErr.permErr) => (s2, Except.ok false)
    | (s2, some e) => (s2, Except.error e)
    | (s2, none) => (s2, Except.ok true)

/-- Names extracted from the raw `LIST -a` lines by the callback of source
line 87, `items.append(line.split()[-1])`: the last whitespace field of each
line; an empty line raises `IndexError`. -/
def namesOf : List String → Except PyErr (List String)
  | [] => Except.ok []
  | line :: rest =>
    match (pySplitWs line).getLast? with
    | none => Except.error PyErr.indexErr
    | some n =>
      match namesOf rest with
      | Except.error e => Except.error e
      | Except.ok ns => Except.ok (n :: ns)

/-- The local target path of a file download (source line 107):
`os.path.join(os.getcwd(), directory, item) if directory else
os.path.join(os.getcwd(), item)`. -/
def localPathOf (lcwd directory item : String) : String :=
  if directory ≠ "" then pyJoin2 (pyJoin2 lcwd directory) item else pyJoin2 lcwd item

/-- The `for item in items` loop of `download_files` (source lines 90-110),
abstracted over the recursive call `rec` (instantiated by `download_files`
with itself at the next fuel level): skip `.`/`..`, probe the entry kind,
then either recurse into a matching directory or binary-retrieve a matching
file. -/
def dlLoopWith (rec : Ftp → LocalFS → String → Ftp × LocalFS × Option PyErr)
    (s : Ftp) (lfs : LocalFS) (lcwd directory wildcard : String)
    (names : List String) : Ftp × LocalFS × Option PyErr :=
  match names with
  | [] => (s, lfs, none)
  | item :: rest =>
    if item = "." ∨ item = ".." then dlLoopWith rec s lfs lcwd directory wildcard rest
    else
      match classifyProbe s item with
      | (s1, Except.error e) => (s1, lfs, some e)
      | (s1, Except.ok true) =>
        if wildcard = "*" ∨ item = wildcard then
          let lfs1 := mkdirL lfs (pyJoin2 lcwd item)
          match rec s1 lfs1 (pyJoin2 (pyJoin2 directory item) "*") with
          | (s2, lfs2, some e) => (s2, lfs2, some e)
          | (s2, lfs2, none) => dlLoopWith rec s2 lfs2 lcwd directory wildcard rest
        else dlLoopWith rec s1 lfs lcwd directory wildcard rest
      | (s1, Except.ok false) =>
        if wildcard = "*" ∨ globMatch wildcard.data item.data then
          let localPath := localPathOf lcwd directory item
          let lfs1 := writeL lfs localPath []
          match ftpRetr s1 item with
          | (s2, Except.error e) => (s2, lfs1, some e)
          | (s2, Except.ok content) =>
            dlLoopWith rec s2 (writeL lfs1 localPath content) lcwd directory wildcard rest
        else dlLoopWith rec s1 lfs lcwd directory wildcard rest

/-- Shallow embedding of `download_files` (source lines 68-112).  `lcwd` is
`os.getcwd()` (constant during a run).  Returns the connection state, the
local filesystem, and `some e` when an exception propagates (in which case
the final `ftp.cwd(base_directory)` of line 112 never runs). -/
def download_files (fuel : Nat) (s : Ftp) (lfs : LocalFS) (lcwd patt : String) :
    Ftp × LocalFS × Option PyErr :=
  match fuel with
  | 0 => (s, lfs, some PyErr.fuelErr)
  | fuel + 1 =>
    let pw := ftpPwd s
    let base := pw.2
    let wildcard := pyBasename patt
    let directory := pyDirname patt
    if directory ≠ "" then
      match ftpCwd pw.1 directory with
      | (s1, some PyErr.permErr) =>
        match ftpCwd s1 base with
        | (s2, none) => (s2, lfs, none)
        | (s2, some e2) => (s2, lfs, some e2)
      | (s1, some _) =>
        match ftpCwd s1 base with
        | (s2, none) => (s2, lfs, none)
        | (s2, some e2) => (s2, lfs, some e2)
      | (s1, none) =>
        match ftpList s1 true with
        | (s2, Except.error e) => (s2, lfs, some e)
        | (s2, Except.ok raw) =>
          match namesOf raw with
          | Except.error e => (s2, lfs, some e)
          | Except.ok names =>
            match dlLoopWith (fun s lf pa => download_files fuel s lf lcwd pa)
                s2 lfs lcwd directory wildcard names with
            | (s3, lfs3, some e) => (s3, lfs3, some e)
            | (s3, lfs3, none) =>
              match ftpCwd s3 base with
              | (s4, none) => (s4, lfs3, none)
              | (s4, some e4) => (s4, lfs3, some e4)
    else
      match ftpList pw.1 true with
      | (s2, Except.error e) => (s2, lfs, some e)
      | (s2, Except.ok raw) =>
        match namesOf raw with
        | Except.error e => (s2, lfs, some e)
        | Except.ok names =>
          match dlLoopWith (fun s lf pa => download_files fuel s lf lcwd pa)
              s2 lfs lcwd directory wildcard names with
          | (s3, lfs3, some e) => (s3, lfs3, some e)
          | (s3, lfs3, none) =>
            match ftpCwd s3 base with
            | (s4, none) => (s4, lfs3, none)
            | (s4, some e4) => (s4, lfs3, some e4)

/-- The `download_files` loop at a given fuel level: `dlLoopWith` whose
directory recursions call `download_files fuel`. -/
def dlLoop (fuel : Nat) (s : Ftp) (lfs : LocalFS) (lcwd directory wildcard : String)
    (names : List String) : Ftp × LocalFS × Option PyErr :=
  dlLoopWith (fun s lf pa => download_files fuel s lf lcwd pa)
    s lfs lcwd directory wildcard names

/-- Characters stripped by Python `int(str)` before parsing. -/
def isPySpace (c : Char) : Bool :=
  c = ' ' ∨ c = '\t' ∨ c = '\n' ∨ c = '\x0d' ∨ c = '\x0b' ∨ c = '\x0c'

/-- Digit accumulator of the `int(str)` model: decimal digits with single
underscores allowed between digits. -/
def digitsCore : List Char → Nat → Option Nat
  | [], acc => some acc
  | c :: rest, acc =>
    if c = '_' then
      match rest with
      | [] => none
      | c2 :: rest2 =>
        if c2.isDigit then digitsCore rest2 (acc * 10 + (c2.toNat - 48)) else none
    else if c.isDigit then digitsCore rest (acc * 10 + (c.toNat - 48)) else none

/-- A nonempty digit run (first character must be a digit). -/
def digitsStart : List Char → Option Nat
  | [] => none
  | c :: rest => if c.isDigit then digitsCore rest (c.toNat - 48) else none

/-- Model of Python `int(str)`: optional surrounding whitespace, optional
sign, then a nonempty decimal digit run; `none` models `ValueError`. -/
def pyToInt (s : String) : Option Int :=
  match ((s.data.dropWhile isPySpace).reverse.dropWhile isPySpace).reverse with
  | [] => none
  | c :: rest =>
    if c = '+' then (digitsStart rest).map Int.ofNat
    else if c = '-' then (digitsStart rest).map (fun n => -(n : Int))
    else (digitsStart (c :: rest)).map Int.ofNat

/-- Shallow embedding of `parse_host_port` (source lines 48-52):
`host, port = host_port_str.split(':')` binds exactly two pieces, otherwise
a `ValueError` propagates; `int(port)` may also raise `ValueError`. -/
def parse_host_port (s : String) : Except PyErr (String × Int) :=
  if ':' ∈ s.data then
    match splitCharOn ':' s.data with
    | [h, p] =>
      match pyToInt ⟨p⟩ with
      | some n => Except.ok (⟨h⟩, n)
      | none => Except.error PyErr.valueErr
    | _ => Except.error PyErr.valueErr
  else Except.ok (s, 21)

theorem splitCharOn_ne_nil (sep : Char) (l : List Char) : splitCharOn sep l ≠ [] := by
  cases l with
  | nil => simp [splitCharOn]
  | cons c rest => rw [splitCharOn]; split <;> simp

theorem consHeadDTail {α : Type} (l : List α) (x : α) (h : l ≠ []) :
    l.headD x :: l.tail = l := by
  cases l with
  | nil => exact absurd rfl h
  | cons a t => rfl

theorem splitCharOn_append_nosep (c t : List Char) (h : '/' ∉ c) :
    splitCharOn '/' (c ++ t) =
      (c ++ (splitCharOn '/' t).headD []) :: (splitCharOn '/' t).tail := by
  induction c with
  | nil =>
    rw [List.nil_append, List.nil_append]
    exact (consHeadDTail _ _ (splitCharOn_ne_nil '/' t)).symm
  | cons a c ih =>
    have ha : a ≠ '/' := fun hh => h (hh ▸ List.mem_cons_self a c)
    have hc : '/' ∉ c := fun hh => h (List.mem_cons_of_mem a hh)
    rw [List.cons_append, splitCharOn]
    rw [if_neg ha, ih hc]
    simp

theorem splitCharOn_joinComps (p : List (List Char))
    (h : ∀ c ∈ p, c ≠ [] ∧ '/' ∉ c) :
    splitCharOn '/' (joinComps p) = [] :: p := by
  induction p with
  | nil => simp [joinComps, splitCharOn]
  | cons c rest ih =>
    rw [joinComps, splitCharOn]
    rw [if_pos rfl]
    have hrest : ∀ x ∈ rest, x ≠ [] ∧ '/' ∉ x := fun x hx => h x (List.mem_cons_of_mem c hx)
    have hc : '/' ∉ c := (h c (List.mem_cons_self c rest)).2
    rw [splitCharOn_append_nosep c (joinComps rest) hc, ih hrest]
    simp

theorem resolveComps_clean (comps : List (List Char)) :
    ∀ start, (∀ c ∈ comps, cleanComp c) → resolveComps start comps = start ++ comps := by
  induction comps with
  | nil => intro start _; simp [resolveComps]
  | cons c cs ih =>
    intro start h
    obtain ⟨h1, -, h3, h4⟩ := h c (List.mem_cons_self c cs)
    rw [resolveComps]
    dsimp only [List.foldl_cons]
    rw [if_neg (by simp [h1, h3]), if_neg h4]
    have := ih (start ++ [c]) (fun x hx => h x (List.mem_cons_of_mem c hx))
    rw [resolveComps] at this
    rw [this]
    simp

theorem resolvePath_renderPath (q p : List (List Char)) (h : cleanPath p) :
    resolvePath q (renderPath p) = p := by
  cases p with
  | nil => simp [renderPath, resolvePath, splitCharOn, resolveComps]
  | cons c rest =>
    have hclean : ∀ x ∈ c :: rest, x ≠ [] ∧ '/' ∉ x :=
      fun x hx => ⟨(h x hx).1, (h x hx).2.1⟩
    have hdata : (renderPath (c :: rest)).data = '/' :: (c ++ joinComps rest) := by
      simp [renderPath, joinComps]
    rw [resolvePath, hdata]
    rw [show ('/' :: (c ++ joinComps rest)).headD ' ' = '/' from rfl]
    rw [if_pos rfl]
    have hsplit := splitCharOn_joinComps (c :: rest) hclean
    rw [joinComps] at hsplit
    rw [hsplit]
    have hstep : resolveComps ([] : List (List Char)) ([] :: c :: rest)
        = resolveComps [] (c :: rest) := by
      rw [resolveComps, resolveComps]
      dsimp only [List.foldl_cons]
      rw [if_pos (Or.inl rfl)]
    rw [hstep]
    have h2 := resolveComps_clean (c :: rest) [] (fun x hx => h x hx)
    simpa using h2

theorem ftpCwd_renderPath (s s' : Ftp) (p : List (List Char)) (h : cleanPath p)
    (hc : ftpCwd s (renderPath p) = (s', none)) : s'.cwdPath = p := by
  rw [ftpCwd] at hc
  rw [resolvePath_renderPath s.cwdPath p h] at hc
  rcases hl : lookupNode s.root p with _ | n
  · rw [hl] at hc; simp at hc
  · rw [hl] at hc
    cases n with
    | file r cont => simp at hc
    | dir e la lp ch =>
      cases e with
      | false => simp at hc
      | true =>
        simp only [Option.some.injEq, Prod.mk.injEq] at hc
        rw [← hc.1]

theorem dl_restore_aux (fuel : Nat) (s : Ftp) (lfs : LocalFS) (lcwd patt : String)
    (s' : Ftp) (lfs' : LocalFS) (hclean : cleanPath s.cwdPath)
    (hdl : download_files fuel s lfs lcwd patt = (s', lfs', none)) :
    s'.cwdPath = s.cwdPath := by
  cases fuel with
  | zero => simp [download_files] at hdl
  | succ fuel =>
    simp only [download_files, ftpPwd] at hdl
    split at hdl
    · split at hdl
      · split at hdl
        · simp only [Prod.mk.injEq] at hdl
          rename_i s2 heq
          have := ftpCwd_renderPath _ _ _ hclean heq
          rw [← hdl.1]
          exact this
        · simp at hdl
      · split at hdl
        · simp only [Prod.mk.injEq] at hdl
          rename_i s2 heq
          have := ftpCwd_renderPath _ _ _ hclean heq
          rw [← hdl.1]
          exact this
        · simp at hdl
      · split at hdl
        · simp at hdl
        · split at hdl
          · simp at hdl
          · split at hdl
            · simp at hdl
            · split at hdl
              · simp only [Prod.mk.injEq] at hdl
                rename_i s4 heq
                have := ftpCwd_renderPath _ _ _ hclean heq
                rw [← hdl.1]
                exact this
              · simp at hdl
    · split at hdl
      · simp at hdl
      · split at hdl
        · simp at hdl
        · split at hdl
          · simp at hdl
          · split at hdl
            · simp only [Prod.mk.injEq] at hdl
              rename_i s4 heq
              have := ftpCwd_renderPath _ _ _ hclean heq
              rw [← hdl.1]
              exact this
            · simp at hdl

/-- C1: for every call of the Recursive Downloader `download_files` that
returns (no exception propagates, which covers both all-successful runs and
runs where a per-entry classification probe failed with `error_perm`), the
remote current directory at return equals the directory recorded by
`base_directory = ftp.pwd()` at entry. -/
theorem claim_C1_download_restores_directory (fuel : Nat) (s : Ftp) (lfs : LocalFS)
    (lcwd patt : String) (hclean : cleanPath s.cwdPath)
    (hret : (download_files fuel s lfs lcwd patt).2.2 = none) :
    (download_files fuel s lfs lcwd patt).1.cwdPath = s.cwdPath := by
  rcases h : download_files fuel s lfs lcwd patt with ⟨a, b, c⟩
  rw [h] at hret
  dsimp only at hret
  subst hret
  exact dl_restore_aux fuel s lfs lcwd patt a b hclean h

/-- Server for the C1 witness: `/sub` holds a readable file `x1` and a
directory `locked` into which `CWD` is denied, so that the classification
probe of `locked` raises (and swallows) an `error_perm` during the run. -/
def c1Root : RNode := RNode.dir true [] []
  [("sub", RNode.dir true
    ["drwxr-xr-x 2 u g 4096 Jan 1 2024 .",
     "drwxr-xr-x 4 u g 4096 Jan 1 2024 ..",
     "-rw-r--r-- 1 u g 2 Jan 1 2024 x1",
     "drwx------ 2 u g 4096 Jan 1 2024 locked"]
    []
    [("x1", RNode.file true [104, 105]),
     ("locked", RNode.dir false [] [] [])])]

/-- Initial connection state for the C1 witness. -/
def c1St : Ftp := ⟨c1Root, [], []⟩

/-- Witness for C1: a concrete run (pattern `sub/x*`) that downloads `x1`,
hits a per-entry `error_perm` when probing `locked`, returns normally, and
ends with the remote directory restored. -/
theorem claim_C1_witness :
    (download_files 3 c1St ⟨[], []⟩ "/home" "sub/x*").2.2 = none ∧
    (download_files 3 c1St ⟨[], []⟩ "/home" "sub/x*").1.cwdPath = c1St.cwdPath :=
  ⟨rfl, claim_C1_download_restores_directory 3 c1St ⟨[], []⟩ "/home" "sub/x*"
    (by decide) rfl⟩

/-- Default flags of the `list` subcommand (no option given). -/
def cfgDefault : TreeCfg := ⟨false, false, false, false, false⟩

/-- Server for the C2 counterexample: the root has one visible plain entry. -/
def c2Root : RNode := RNode.dir true
  ["-rw-r--r-- 1 u g 10 Jan 1 2024 file.txt"]
  ["-rw-r--r-- 1 u g 10 Jan 1 2024 file.txt"]
  [("file.txt", RNode.file true [104])]

/-- Initial connection state for the C2 counterexample. -/
def c2St : Ftp := ⟨c2Root, [], []⟩

/-- Counterexample to C2 as stated: with `--recursion 0` the `list` command
prints nothing at all — not the root's entries — because `ftp_tree` returns
before any network call; the same directory rendered with `--recursion 1`
does print its entry, so the silence is not for lack of entries. -/
theorem claim_C2_counterexample :
    (listCommand 2 c2St "/" (some 0) cfgDefault = (c2St, [], none)) ∧
    (listCommand 2 c2St "/" (some 1) cfgDefault).2.1 = ["└── file.txt"] :=
  ⟨rfl, rfl⟩

/-- C2 amended: invoking the `list` command with `--recursion 0` prints
nothing and performs no network request: `ftp_tree` returns immediately
(its depth check `recursion_depth < 1` fires before `cwd`/`LIST`), leaving
the connection state untouched.  Listing the root only, with no descent, is
the behaviour of `--recursion 1`, not `--recursion 0`. -/
theorem claim_C2_recursion_zero_prints_nothing (fuel : Nat) (s : Ftp)
    (directory : String) (cfg : TreeCfg) :
    listCommand (fuel + 1) s directory (some 0) cfg = (s, [], none) := by
  rw [listCommand, ftp_tree]
  simp [depthExhausted]

theorem treeLoopNoRec_state (items : List (List String)) :
    ∀ s idx last indent cfg, (treeLoopNoRec s items idx last indent cfg).1 = s := by
  induction items with
  | nil => intro s idx last indent cfg; rfl
  | cons it rest ih =>
    intro s idx last indent cfg
    rw [treeLoopNoRec.eq_def]
    split
    · rfl
    · rename_i it2 rest2 heq
      injection heq with h1 h2
      subst h1
      subst h2
      split
      · split
        · rfl
        · exact ih s (idx + 1) last indent cfg
        · dsimp only
          split
          · rfl
          · dsimp only
            exact ih s (idx + 1) last indent cfg
      · rfl

theorem treeLoopWith_some1
    (rec : Ftp → String → String → Option Int → Ftp × List String × Option PyErr)
    (items : List (List String)) :
    ∀ s idx last directory indent cfg,
      treeLoopWith rec s items idx last directory indent (some 1) cfg
        = treeLoopNoRec s items idx last indent cfg := by
  induction items with
  | nil => intros; rfl
  | cons it rest ih =>
    intro s idx last directory indent cfg
    rcases it with _ | ⟨perms, it1⟩
    · rfl
    rcases it1 with _ | ⟨f1, it2⟩
    · rfl
    rcases it2 with _ | ⟨f2, it3⟩
    · rfl
    rcases it3 with _ | ⟨f3, it4⟩
    · rfl
    rcases it4 with _ | ⟨f4, it5⟩
    · rfl
    rcases it5 with _ | ⟨f5, it6⟩
    · rfl
    rcases it6 with _ | ⟨f6, it7⟩
    · rfl
    rcases it7 with _ | ⟨f7, it8⟩
    · rfl
    rcases it8 with _ | ⟨name, it9⟩
    · rfl
    simp only [treeLoopWith, treeLoopNoRec]
    rcases hs : survives cfg perms name with e | b
    · rfl
    · cases b
      · exact ih s (idx + 1) last directory indent cfg
      · rcases hd : descends cfg perms (shortNameOf name) with e2 | b2
        · rfl
        · simp only [show canDescend (some 1) = false from rfl, Bool.false_eq_true, if_false]
          rw [ih s (idx + 1) last directory indent cfg]
          cases b2 <;> rfl

theorem ftpCwd_log (s : Ftp) (p : String) :
    (ftpCwd s p).1.log = s.log ++ [NetOp.cwdOp p] := by
  rw [ftpCwd]
  split <;> rfl

theorem ftpList_log (s : Ftp) (showAll : Bool) :
    (ftpList s showAll).1.log = s.log ++ [NetOp.listOp (if showAll then "LIST -a" else "LIST")] := by
  rw [ftpList]
  split <;> rfl

theorem ftp_tree_depth1 (fuel : Nat) (s : Ftp) (directory indent : String) (cfg : TreeCfg) :
    ftp_tree (fuel + 1) s directory indent (some 1) cfg = ftpTreeNoRec s directory indent cfg := by
  rw [ftp_tree, ftpTreeNoRec]
  simp only [show depthExhausted (some 1) = false from rfl, Bool.false_eq_true, if_false]
  rcases hc : ftpCwd s directory with ⟨s1, e⟩
  rcases e with _ | pe
  · dsimp only
    rcases hl : ftpList s1 cfg.showHidden with ⟨s2, r⟩
    rcases r with pe2 | raw
    · cases pe2 <;> rfl
    · dsimp only
      split
      · rfl
      · exact treeLoopWith_some1 _ _ s2 0 _ directory indent cfg
  · cases pe <;> rfl

theorem ftpTreeNoRec_log (s : Ftp) (directory indent : String) (cfg : TreeCfg) :
    (ftpTreeNoRec s directory indent cfg).1.log = s.log ++ [NetOp.cwdOp directory] ∨
    (ftpTreeNoRec s directory indent cfg).1.log
      = s.log ++ [NetOp.cwdOp directory,
                  NetOp.listOp (if cfg.showHidden then "LIST -a" else "LIST")] := by
  rw [ftpTreeNoRec]
  rcases hc : ftpCwd s directory with ⟨s1, e⟩
  have hlog1 : s1.log = s.log ++ [NetOp.cwdOp directory] := by
    have := ftpCwd_log s directory
    rw [hc] at this
    exact this
  rcases e with _ | pe
  · dsimp only
    rcases hl : ftpList s1 cfg.showHidden with ⟨s2, r⟩
    have hlog2 : s2.log = s1.log ++ [NetOp.listOp (if cfg.showHidden then "LIST -a" else "LIST")] := by
      have := ftpList_log s1 cfg.showHidden
      rw [hl] at this
      exact this
    have hright : s2.log = s.log ++ [NetOp.cwdOp directory,
        NetOp.listOp (if cfg.showHidden then "LIST -a" else "LIST")] := by
      rw [hlog2, hlog1]
      simp
    rcases r with pe2 | raw
    · cases pe2 <;> exact Or.inr hright
    · dsimp only
      split
      · exact Or.inr hright
      · rw [treeLoopNoRec_state]
        exact Or.inr hright
  · cases pe <;> exact Or.inl hlog1

/-- C3: `ftp_tree` with `recursion_depth = 0` is a no-op — it returns the
state unchanged (in particular its network log is unchanged: zero `cwd` and
zero `LIST` requests) and prints nothing, the depth check of source line 7
running before any network call; with `recursion_depth = 1` it equals the
single-level renderer `ftpTreeNoRec`, which lists exactly the immediate
children (its log grows by exactly the one `cwd` and at most the one `LIST`
request) and descends into none of them. -/
theorem claim_C3_depth_contract (fuel : Nat) (s : Ftp) (directory indent : String)
    (cfg : TreeCfg) :
    ftp_tree (fuel + 1) s directory indent (some 0) cfg = (s, [], none) ∧
    ftp_tree (fuel + 1) s directory indent (some 1) cfg = ftpTreeNoRec s directory indent cfg ∧
    ((ftpTreeNoRec s directory indent cfg).1.log = s.log ++ [NetOp.cwdOp directory] ∨
     (ftpTreeNoRec s directory indent cfg).1.log
       = s.log ++ [NetOp.cwdOp directory,
                   NetOp.listOp (if cfg.showHidden then "LIST -a" else "LIST")]) := by
  refine ⟨?_, ftp_tree_depth1 fuel s directory indent cfg, ftpTreeNoRec_log s directory indent cfg⟩
  rw [ftp_tree]
  simp [depthExhausted]

theorem mem_insStable {α : Type} (le : α → α → Bool) (x a : α) (l : List α) :
    a ∈ insStable le x l ↔ a = x ∨ a ∈ l := by
  induction l with
  | nil => simp [insStable]
  | cons y ys ih =>
    rw [insStable]
    split
    · simp
    · simp only [List.mem_cons, ih]
      tauto

theorem mem_pySorted {α : Type} (le : α → α → Bool) (a : α) (l : List α) :
    a ∈ pySorted le l ↔ a ∈ l := by
  induction l with
  | nil => simp [pySorted]
  | cons x xs ih =>
    rw [pySorted, mem_insStable]
    simp [ih]

theorem treeLoopWith_malformed
    (rec : Ftp → String → String → Option Int → Ftp × List String × Option PyErr)
    (items : List (List String)) :
    ∀ s idx last directory indent rdepth cfg,
      (∃ it ∈ items, it.length < 9) →
      (treeLoopWith rec s items idx last directory indent rdepth cfg).2.2 ≠ none := by
  induction items with
  | nil =>
    intro s idx last directory indent rdepth cfg h
    simp at h
  | cons it rest ih =>
    intro s idx last directory indent rdepth cfg h
    rcases it with _ | ⟨perms, it1⟩
    · simp [treeLoopWith]
    rcases it1 with _ | ⟨f1, it2⟩
    · simp [treeLoopWith]
    rcases it2 with _ | ⟨f2, it3⟩
    · simp [treeLoopWith]
    rcases it3 with _ | ⟨f3, it4⟩
    · simp [treeLoopWith]
    rcases it4 with _ | ⟨f4, it5⟩
    · simp [treeLoopWith]
    rcases it5 with _ | ⟨f5, it6⟩
    · simp [treeLoopWith]
    rcases it6 with _ | ⟨f6, it7⟩
    · simp [treeLoopWith]
    rcases it7 with _ | ⟨f7, it8⟩
    · simp [treeLoopWith]
    rcases it8 with _ | ⟨name, it9⟩
    · simp [treeLoopWith]
    have hrest : ∃ it ∈ rest, it.length < 9 := by
      rcases h with ⟨w, hw, hlen⟩
      rcases List.mem_cons.mp hw with hw2 | hw2
      · subst hw2; simp at hlen; omega
      · exact ⟨w, hw2, hlen⟩
    simp only [treeLoopWith]
    rcases hs : survives cfg perms name with e | b
    · simp
    · cases b
      · exact ih s (idx + 1) last directory indent rdepth cfg hrest
      · rcases hd : descends cfg perms (shortNameOf name) with e2 | b2
        · simp
        · cases b2
          · exact ih s (idx + 1) last directory indent rdepth cfg hrest
          · dsimp only
            cases hcd : canDescend rdepth
            · simp only [hcd, Bool.false_eq_true, if_false]
              exact ih s (idx + 1) last directory indent rdepth cfg hrest
            · simp only [hcd, if_true]
              rcases hrc : (rec s
                  (if directory ≠ "/" then directory ++ "/" ++ shortNameOf name
                   else "/" ++ shortNameOf name)
                  (indent ++ (if idx == last then "    " else "│   "))
                  (childDepth rdepth)).2.2 with _ | e3
              · exact ih _ (idx + 1) last directory indent rdepth cfg hrest
              · simp

/-- C4 amended: a raw listing line with fewer than 9 whitespace-separated
fields is not silently skipped.  The 9-place tuple unpacking of source line
28 raises an uncaught `ValueError` (it sits outside the `try` of lines
10-13), so the exception propagates out of `ftp_tree` and aborts the
rendering; entries printed before the malformed line remain printed, and the
top-level handler of `main` then prints a (misleading) diagnostic. -/
theorem claim_C4_malformed_line_raises (fuel : Nat) (s : Ftp) (directory indent : String)
    (rdepth : Option Int) (cfg : TreeCfg) (s1 s2 : Ftp) (raw : List String)
    (hnd : depthExhausted rdepth = false)
    (hc : ftpCwd s directory = (s1, none))
    (hl : ftpList s1 cfg.showHidden = (s2, Except.ok raw))
    (hne : ∀ line ∈ raw, pySplitWs line ≠ [])
    (hmal : ∃ line ∈ raw, (pySplitWs line).length < 9) :
    (ftp_tree (fuel + 1) s directory indent rdepth cfg).2.2 ≠ none := by
  rw [ftp_tree]
  simp only [hnd, Bool.false_eq_true, if_false]
  rw [hc]
  dsimp only
  rw [hl]
  dsimp only
  have hany : ((raw.map pySplitWs).any fun it => it.isEmpty) = false := by
    simp only [List.any_eq_false, List.mem_map]
    rintro it ⟨line, hline, rfl⟩
    simpa [List.isEmpty_iff] using hne line hline
  simp only [hany, Bool.false_eq_true, if_false]
  apply treeLoopWith_malformed
  rcases hmal with ⟨line, hline, hlen⟩
  refine ⟨pySplitWs line, ?_, hlen⟩
  rw [sortItems, mem_pySorted]
  exact List.mem_map_of_mem _ hline

/-- Server for C4: the plain listing of the root holds one well-formed line
and one line with only 2 fields. -/
def c4Root : RNode := RNode.dir true
  []
  ["drwxr-xr-x 2 u g 4096 Jan 1 2024 adir", "short line"]
  [("adir", RNode.dir true [] [] [])]

def c4St : Ftp := ⟨c4Root, [], []⟩

/-- Counterexample to C4 as stated: rendering `c4Root` prints the
well-formed entry and then raises `ValueError` at the 2-field line `short
line` — an error does surface, the loop aborts, the line is not silently
skipped. -/
theorem claim_C4_counterexample :
    (ftp_tree 3 c4St "/" "" none cfgDefault).2.1 = ["├── adir"] ∧
    (ftp_tree 3 c4St "/" "" none cfgDefault).2.2 = some PyErr.valueErr :=
  ⟨rfl, rfl⟩

/-- Witness for the amended C4 theorem at the concrete `c4Root` listing. -/
theorem claim_C4_witness :
    (ftp_tree 3 c4St "/" "" none cfgDefault).2.2 ≠ none :=
  claim_C4_malformed_line_raises 2 c4St "/" "" none cfgDefault _ _ _
    rfl rfl rfl (by decide) (by decide)

/-- C5 amended: for a 9+-field listing entry the `--only-dir` filter and the
recursion guard test exactly `permissions[0] == 'd'` (confirming the
directory half of the claim), but the `--world-writable` filter tests
`permissions[-2]` — the second-to-last character of field 0, which is the
character at index 8 only when the permission string has length exactly 10.
Here with `h2` ruling out the `IndexError` of `permissions[-2]`. -/
theorem claim_C5_permission_positions (sp ei w5 : Bool) (perms name sn : String)
    (h2 : 2 ≤ perms.data.length) (hdot : sn.data.contains '.' = false) :
    survives ⟨sp, true, ei, true, false⟩ perms name
      = Except.ok (decide (perms.data.headD ' ' = 'd')) ∧
    survives ⟨sp, true, ei, false, true⟩ perms name
      = Except.ok (decide (perms.data.getD (perms.data.length - 2) ' ' = 'w')) ∧
    descends ⟨sp, true, ei, false, w5⟩ perms sn
      = Except.ok (decide (perms.data.headD ' ' = 'd') && !w5) := by
  obtain ⟨pd⟩ := perms
  rcases pd with _ | ⟨c0, rest⟩
  · simp at h2
  have hat0 : pyCharAt ⟨c0 :: rest⟩ 0 = some c0 := by
    simp [pyCharAt]
  have hatm2 : pyCharAt ⟨c0 :: rest⟩ (-2)
      = some ((c0 :: rest).getD ((c0 :: rest).length - 2) ' ') := by
    rw [pyCharAt]
    have hn : ((⟨c0 :: rest⟩ : String).data.length : Int) = (rest.length : Int) + 1 := by
      simp
    simp only [hn]
    rw [if_pos (by constructor <;> omega)]
    rw [if_pos (by omega)]
    congr 1
    have : ((-2) + ((rest.length : Int) + 1)).toNat = rest.length - 1 := by omega
    rw [this]
    simp
  refine ⟨?_, ?_, ?_⟩
  · simp only [survives, hat0]
    by_cases hd : c0 = 'd'
    · simp [hd, survivesWW]
    · simp [hd, survivesWW]
  · simp only [survives, survivesWW, hatm2]
    by_cases hw : (c0 :: rest).getD ((c0 :: rest).length - 2) ' ' = 'w'
    · simp [hw]
    · simp [hw]
  · rw [descends]
    rw [if_neg (by simpa using hdot)]
    rw [hat0]
    by_cases hd : c0 = 'd'
    · simp [hd]
    · simp [hd]

/-- Counterexample to C5 as stated: the 11-character permission field
`drwxrwxrwx+` (an ACL-style listing) has `'w'` at index 8, yet the
`--world-writable` filter drops the entry (its `permissions[-2]` is `'x'`),
so the renderer loop prints nothing for it. -/
theorem claim_C5_counterexample :
    pyCharAt "drwxrwxrwx+" 8 = some 'w' ∧
    survives ⟨false, true, false, false, true⟩ "drwxrwxrwx+" "pubdir" = Except.ok false ∧
    (treeLoop 1 c2St [["drwxrwxrwx+", "1", "u", "g", "0", "Jan", "1", "2024", "pubdir"]]
      0 0 "/" "" (some 1) ⟨false, true, false, false, true⟩).2.1 = [] :=
  ⟨rfl, rfl, rfl⟩

/-- Witness for the amended C5 theorem at a standard 10-character
permission string. -/
theorem claim_C5_witness :
    survives ⟨false, true, false, true, false⟩ "drwxr-xr-x" "adir"
      = Except.ok (decide ("drwxr-xr-x".data.headD ' ' = 'd')) ∧
    survives ⟨false, true, false, false, true⟩ "drwxr-xr-x" "adir"
      = Except.ok (decide ("drwxr-xr-x".data.getD ("drwxr-xr-x".data.length - 2) ' ' = 'w')) ∧
    descends ⟨false, true, false, false, false⟩ "drwxr-xr-x" "adir"
      = Except.ok (decide ("drwxr-xr-x".data.headD ' ' = 'd') && !false) :=
  claim_C5_permission_positions false false false "drwxr-xr-x" "adir" "adir"
    (by decide) (by decide)

/-- Spec-side survival predicate of 4.2 step 5: an entry is shown iff it is
not hidden-filtered, not `--only-dir`-filtered and not
`--world-writable`-filtered (conjunctive filters). -/
def entryKeep (cfg : TreeCfg) (perms name : String) : Bool :=
  (cfg.showHidden || !(pyStartsWith name ".")) &&
  (!cfg.onlyDirs || perms.data.headD ' ' == 'd') &&
  (!cfg.worldWritable || perms.data.getD (perms.data.length - 2) ' ' == 'w')

/-- Spec-side rendering of one enumerated entry: kept entries render one
line whose glyph is the corner exactly when the enumeration index equals
`last`, the index of the final entry of the full sorted list. -/
def entryOpt (cfg : TreeCfg) (indent : String) (last : Nat) (p : Nat × List String) :
    Option String :=
  match p.2 with
  | perms :: _ :: _ :: _ :: _ :: _ :: _ :: _ :: name :: _ =>
    if entryKeep cfg perms name then some (renderLine cfg indent (p.1 == last) perms name)
    else none
  | _ => none

/-- Whether a raw (split) listing item survives the filters. -/
def entryKeepItem (cfg : TreeCfg) (it : List String) : Bool :=
  match it with
  | perms :: _ :: _ :: _ :: _ :: _ :: _ :: _ :: name :: _ => entryKeep cfg perms name
  | _ => false

theorem pyCharAt_zero (perms : String) (h : perms.data ≠ []) :
    pyCharAt perms 0 = some (perms.data.headD ' ') := by
  obtain ⟨pd⟩ := perms
  rcases pd with _ | ⟨c0, rest⟩
  · simp at h
  · simp [pyCharAt]

theorem pyCharAt_neg2 (perms : String) (h : 2 ≤ perms.data.length) :
    pyCharAt perms (-2) = some (perms.data.getD (perms.data.length - 2) ' ') := by
  obtain ⟨pd⟩ := perms
  rcases pd with _ | ⟨c0, rest⟩
  · simp at h
  rw [pyCharAt]
  have hn : ((⟨c0 :: rest⟩ : String).data.length : Int) = (rest.length : Int) + 1 := by
    simp
  simp only [hn]
  rw [if_pos (by constructor <;> omega)]
  rw [if_pos (by omega)]
  congr 1
  have : ((-2) + ((rest.length : Int) + 1)).toNat = rest.length - 1 := by omega
  rw [this]
  simp

theorem survives_eq_entryKeep (cfg : TreeCfg) (perms name : String)
    (h2 : 2 ≤ perms.data.length) :
    survives cfg perms name = Except.ok (entryKeep cfg perms name) := by
  obtain ⟨pd⟩ := perms
  rcases pd with _ | ⟨c0, rest⟩
  · simp at h2
  have hat0 : pyCharAt ⟨c0 :: rest⟩ 0 = some c0 := by
    simp [pyCharAt]
  have hatm2 : pyCharAt ⟨c0 :: rest⟩ (-2)
      = some ((c0 :: rest).getD ((c0 :: rest).length - 2) ' ') := by
    rw [pyCharAt]
    have hn : ((⟨c0 :: rest⟩ : String).data.length : Int) = (rest.length : Int) + 1 := by
      simp
    simp only [hn]
    rw [if_pos (by constructor <;> omega)]
    rw [if_pos (by omega)]
    congr 1
    have : ((-2) + ((rest.length : Int) + 1)).toNat = rest.length - 1 := by omega
    rw [this]
    simp
  rw [survives, entryKeep]
  by_cases bh : (¬cfg.showHidden ∧ pyStartsWith name ".")
  · rw [if_pos bh]
    obtain ⟨b1, b2⟩ := bh
    have hsh : cfg.showHidden = false := by
      cases hx : cfg.showHidden
      · rfl
      · exact absurd hx b1
    simp [hsh, b2, Bool.beq_eq_decide_eq]
  · rw [if_neg bh]
    have hfac1 : (cfg.showHidden || !(pyStartsWith name ".")) = true := by
      cases hx : cfg.showHidden
      · cases hy : pyStartsWith name "."
        · simp
        · exact absurd ⟨by simp [hx], hy⟩ bh
      · simp
    rw [hfac1]
    by_cases bo : cfg.onlyDirs = true
    · rw [if_pos bo, hat0]
      dsimp only
      by_cases hd : c0 = 'd'
      · rw [if_neg (by simp [hd]), survivesWW]
        by_cases bw : cfg.worldWritable = true
        · rw [if_pos bw, hatm2]
          by_cases hw : (c0 :: rest).getD ((c0 :: rest).length - 2) ' ' = 'w'
          · simp [bo, bw, hd, hw, Bool.beq_eq_decide_eq]
          · simp [bo, bw, hd, hw, Bool.beq_eq_decide_eq]
        · have hbw : cfg.worldWritable = false := by
            cases hx : cfg.worldWritable
            · rfl
            · exact absurd hx bw
          rw [if_neg bw]
          simp [bo, hbw, hd, Bool.beq_eq_decide_eq]
      · rw [if_pos (by simp [hd])]
        simp [bo, hd, Bool.beq_eq_decide_eq]
    · have hbo : cfg.onlyDirs = false := by
        cases hx : cfg.onlyDirs
        · rfl
        · exact absurd hx bo
      rw [if_neg bo, survivesWW]
      by_cases bw : cfg.worldWritable = true
      · rw [if_pos bw, hatm2]
        by_cases hw : (c0 :: rest).getD ((c0 :: rest).length - 2) ' ' = 'w'
        · simp [hbo, bw, hw, Bool.beq_eq_decide_eq]
        · simp [hbo, bw, hw, Bool.beq_eq_decide_eq]
      · have hbw : cfg.worldWritable = false := by
          cases hx : cfg.worldWritable
          · rfl
          · exact absurd hx bw
        rw [if_neg bw]
        simp [hbo, hbw, Bool.beq_eq_decide_eq]

theorem descends_isOk (cfg : TreeCfg) (perms sn : String) (h : perms.data ≠ []) :
    ∃ b, descends cfg perms sn = Except.ok b := by
  rw [descends]
  split
  · exact ⟨false, rfl⟩
  · rw [pyCharAt_zero perms h]
    exact ⟨_, rfl⟩

theorem treeLoopWith_depth1_filterMap
    (rec : Ftp → String → String → Option Int → Ftp × List String × Option PyErr)
    (items : List (List String)) :
    ∀ s idx last directory indent cfg,
      (∀ it ∈ items, 9 ≤ it.length) →
      (∀ it ∈ items, 2 ≤ (it.headD "").data.length) →
      treeLoopWith rec s items idx last directory indent (some 1) cfg
        = (s, (List.enumFrom idx items).filterMap (entryOpt cfg indent last), none) := by
  induction items with
  | nil => intros; rfl
  | cons it rest ih =>
    intro s idx last directory indent cfg h9 h2
    have h9r : ∀ x ∈ rest, 9 ≤ x.length := fun x hx => h9 x (List.mem_cons_of_mem it hx)
    have h2r : ∀ x ∈ rest, 2 ≤ (x.headD "").data.length :=
      fun x hx => h2 x (List.mem_cons_of_mem it hx)
    have h9h := h9 it (List.mem_cons_self it rest)
    have h2h := h2 it (List.mem_cons_self it rest)
    rcases it with _ | ⟨perms, it1⟩
    · simp at h9h
    rcases it1 with _ | ⟨f1, it2⟩
    · simp at h9h
    rcases it2 with _ | ⟨f2, it3⟩
    · simp at h9h
    rcases it3 with _ | ⟨f3, it4⟩
    · simp at h9h
    rcases it4 with _ | ⟨f4, it5⟩
    · simp at h9h
    rcases it5 with _ | ⟨f5, it6⟩
    · simp at h9h
    rcases it6 with _ | ⟨f6, it7⟩
    · simp at h9h
    rcases it7 with _ | ⟨f7, it8⟩
    · simp at h9h
    rcases it8 with _ | ⟨name, it9⟩
    · simp at h9h
    have h2p : 2 ≤ perms.data.length := by simpa using h2h
    simp only [treeLoopWith]
    rw [survives_eq_entryKeep cfg perms name h2p]
    have hperm_ne : perms.data ≠ [] := by
      intro hh
      rw [hh] at h2p
      simp at h2p
    rw [List.enumFrom_cons]
    cases hk : entryKeep cfg perms name
    · rw [ih s (idx + 1) last directory indent cfg h9r h2r]
      rw [List.filterMap_cons]
      have : entryOpt cfg indent last (idx, perms :: f1 :: f2 :: f3 :: f4 :: f5 :: f6 :: f7 :: name :: it9) = none := by
        rw [entryOpt]
        simp [hk]
      rw [this]
    · obtain ⟨b, hb⟩ := descends_isOk cfg perms (shortNameOf name) hperm_ne
      rw [hb]
      rw [show canDescend (some 1) = false from rfl]
      simp only [Bool.false_eq_true, if_false]
      rw [ih s (idx + 1) last directory indent cfg h9r h2r]
      rw [List.filterMap_cons]
      have : entryOpt cfg indent last (idx, perms :: f1 :: f2 :: f3 :: f4 :: f5 :: f6 :: f7 :: name :: it9)
          = some (renderLine cfg indent (idx == last) perms name) := by
        rw [entryOpt]
        simp [hk]
      rw [this]
      cases b <;> rfl

/-- C6: over any parsed-and-sorted entry list (at depth 1, which isolates
the branch's own printed lines from child output), the renderer loop prints
exactly the kept entries in order, and an entry's line uses the corner
glyph iff its enumeration index equals `length - 1` — the index of the last
entry of the FULL sorted list, not of the filtered sublist (first
conjunct); consequently, when the unfiltered-last entry is dropped by a
filter, every printed line of the branch was rendered with the tee glyph
(second conjunct).  Hypotheses `h9`/`h2` rule out the unrelated
`ValueError`/`IndexError` aborts of claims C4/C5. -/
theorem claim_C6_corner_glyph (fuel : Nat) (s : Ftp) (items : List (List String))
    (directory indent : String) (cfg : TreeCfg)
    (h9 : ∀ it ∈ items, 9 ≤ it.length)
    (h2 : ∀ it ∈ items, 2 ≤ (it.headD "").data.length) :
    treeLoop fuel s items 0 (items.length - 1) directory indent (some 1) cfg
      = (s, (items.enum).filterMap (entryOpt cfg indent (items.length - 1)), none) ∧
    (entryKeepItem cfg (items.getLastD []) = false →
      ∀ l ∈ (treeLoop fuel s items 0 (items.length - 1) directory indent (some 1) cfg).2.1,
        ∃ p n, l = renderLine cfg indent false p n) := by
  have h1 := treeLoopWith_depth1_filterMap (fun s d i rd => ftp_tree fuel s d i rd cfg)
    items s 0 (items.length - 1) directory indent cfg h9 h2
  rw [treeLoop]
  refine ⟨h1, ?_⟩
  intro hlast l hl
  rw [h1] at hl
  dsimp only at hl
  obtain ⟨⟨i, it⟩, hmem, hopt⟩ := List.mem_filterMap.mp hl
  rw [entryOpt] at hopt
  split at hopt
  · rename_i perms g1 g2 g3 g4 g5 g6 g7 name tail heq
    split at hopt
    · rename_i hkeep
      have hi : i ≠ items.length - 1 := by
        intro hie
        have hget := List.mem_enum_iff_get?.mp hmem
        dsimp only at hget
        rw [hie] at hget
        have hlastit : items.getLastD [] = it := by
          rw [List.getLastD_eq_getLast?, List.getLast?_eq_get?, hget]
          rfl
        dsimp only at heq
        rw [hlastit, heq, entryKeepItem] at hlast
        rw [hkeep] at hlast
        simp at hlast
      have hfalse : (i == items.length - 1) = false := by
        simp [hi]
      rw [hfalse] at hopt
      refine ⟨perms, name, ?_⟩
      injection hopt with hopt2
      exact hopt2.symm
    · exact absurd hopt (by simp)
  · exact absurd hopt (by simp)

/-- Two well-formed sorted listing items for the C6 witness. -/
def c6Items : List (List String) :=
  [["drwxr-xr-x", "2", "u", "g", "4096", "Jan", "1", "2024", "adir"],
   ["-rw-r--r--", "1", "u", "g", "10", "Jan", "1", "2024", "file.txt"]]

/-- Witness for C6 at a concrete two-entry listing. -/
theorem claim_C6_witness :
    treeLoop 1 c2St c6Items 0 (c6Items.length - 1) "/" "" (some 1) cfgDefault
      = (c2St, (c6Items.enum).filterMap (entryOpt cfgDefault "" (c6Items.length - 1)), none) :=
  (claim_C6_corner_glyph 1 c2St c6Items "/" "" cfgDefault (by decide) (by decide)).1

theorem globMatchF_star : ∀ (f : Nat) (cs : List Char), cs.length + 2 ≤ f →
    globMatchF f ['*'] cs = true := by
  intro f
  induction f with
  | zero => intro cs h; omega
  | succ n ih =>
    intro cs h
    cases cs with
    | nil =>
      rw [show globMatchF (n + 1) ['*'] [] = globMatchF n [] [] from rfl]
      cases n with
      | zero => omega
      | succ m => rfl
    | cons c cs2 =>
      rw [show globMatchF (n + 1) ['*'] (c :: cs2)
            = (globMatchF n [] (c :: cs2) || globMatchF n ['*'] cs2) from rfl]
      have h1 : globMatchF n [] (c :: cs2) = false := by
        cases n <;> rfl
      rw [h1, Bool.false_or]
      apply ih
      have : (c :: cs2).length = cs2.length + 1 := rfl
      omega

theorem globMatch_star (cs : List Char) : globMatch ['*'] cs = true := by
  apply globMatchF_star
  simp [globMatch]
  omega

theorem ftpCwd_ok_cwdPath (s s1 : Ftp) (p : String) (h : ftpCwd s p = (s1, none)) :
    s1.cwdPath = resolvePath s.cwdPath p := by
  rw [ftpCwd] at h
  split at h
  · simp only [Prod.mk.injEq] at h
    rw [← h.1]
  · simp at h

theorem ftpCwd_err_cwdPath (s s1 : Ftp) (p : String) (e : PyErr)
    (h : ftpCwd s p = (s1, some e)) : s1.cwdPath = s.cwdPath := by
  rw [ftpCwd] at h
  split at h
  · simp at h
  · simp only [Prod.mk.injEq] at h
    rw [← h.1]

/-- C9: in the classification probe of `download_files` (source lines
95-100), when `cwd` into an entry succeeds but the `cwd('..')` back to the
parent raises `error_perm`, the entry is classified as a file (the `except`
catches the error from either request), and the remote current directory is
left inside the entry: all subsequent entries of the loop are processed
from that inner directory.  Hypotheses `hw1`/`hw2` make the
(mis)classified entry skip the file-download branch, so the loop equality
shows the rest of the loop running from the inner-directory state `s2`. -/
theorem claim_C9_probe_misclassification (fuel : Nat) (s s1 s2 : Ftp) (lfs : LocalFS)
    (lcwd directory wildcard item : String) (rest : List String)
    (hd1 : item ≠ ".") (hd2 : item ≠ "..")
    (hcwd : ftpCwd s item = (s1, none))
    (hup : ftpCwd s1 ".." = (s2, some PyErr.permErr))
    (hw1 : wildcard ≠ "*") (hw2 : globMatch wildcard.data item.data = false) :
    classifyProbe s item = (s2, Except.ok false) ∧
    s2.cwdPath = resolvePath s.cwdPath item ∧
    dlLoop fuel s lfs lcwd directory wildcard (item :: rest)
      = dlLoop fuel s2 lfs lcwd directory wildcard rest := by
  have hcp : classifyProbe s item = (s2, Except.ok false) := by
    rw [classifyProbe, hcwd]
    dsimp only
    rw [hup]
  have hpath : s2.cwdPath = resolvePath s.cwdPath item := by
    rw [ftpCwd_err_cwdPath s1 s2 ".." PyErr.permErr hup]
    exact ftpCwd_ok_cwdPath s s1 item hcwd
  refine ⟨hcp, hpath, ?_⟩
  simp only [dlLoop]
  rw [dlLoopWith]
  rw [if_neg (by simp [hd1, hd2])]
  rw [hcp]
  dsimp only
  rw [if_neg (by simp [hw1, hw2])]

/-- Server for the C9 witness: the starting directory `hall` is itself
non-enterable, so after probing into `hall/inner` the `cwd('..')` back is
denied. -/
def c9Root : RNode := RNode.dir true [] []
  [("hall", RNode.dir false [] [] [("inner", RNode.dir true [] [] [])])]

/-- Start inside the non-enterable directory for the C9 witness. -/
def c9St : Ftp := ⟨c9Root, ["hall".data], []⟩

/-- Witness for C9: probing `inner` from inside `hall` succeeds going in
and fails coming back, so `inner` is classified a file and the loop
continues from inside it. -/
theorem claim_C9_witness :
    classifyProbe c9St "inner" = ((ftpCwd (ftpCwd c9St "inner").1 "..").1, Except.ok false) ∧
    (ftpCwd (ftpCwd c9St "inner").1 "..").1.cwdPath = resolvePath c9St.cwdPath "inner" ∧
    dlLoop 1 c9St ⟨[], []⟩ "/home" "" "z*" ["inner"]
      = dlLoop 1 (ftpCwd (ftpCwd c9St "inner").1 "..").1 ⟨[], []⟩ "/home" "" "z*" [] :=
  claim_C9_probe_misclassification 1 c9St (ftpCwd c9St "inner").1
    (ftpCwd (ftpCwd c9St "inner").1 "..").1 ⟨[], []⟩ "/home" "" "z*" "inner" []
    (by decide) (by decide) rfl rfl (by decide) (by decide)

/-- C8: for an entry classified as a directory, `download_files` enters it
(creates the local directory and recurses) iff the wildcard part is `"*"`
or the entry name equals it exactly — never by glob (conjuncts 1-2); an
entry classified as a file whose bare name fails the glob is skipped, and
the file branch's condition `wildcard == '*' or fnmatch(...)` is equivalent
to the plain glob match since `*` matches everything (conjuncts 3-4). The
positive file-download branch itself is the subject of the claim-C7
theorem. -/
theorem claim_C8_download_match_rules (fuel : Nat) (s s1 : Ftp) (lfs : LocalFS)
    (lcwd directory wildcard item : String) (rest : List String)
    (hd1 : item ≠ ".") (hd2 : item ≠ "..") :
    ((classifyProbe s item = (s1, Except.ok true) → (wildcard = "*" ∨ item = wildcard) →
      dlLoop fuel s lfs lcwd directory wildcard (item :: rest)
        = (match download_files fuel s1 (mkdirL lfs (pyJoin2 lcwd item)) lcwd
              (pyJoin2 (pyJoin2 directory item) "*") with
           | (s2, lfs2, some e) => (s2, lfs2, some e)
           | (s2, lfs2, none) => dlLoop fuel s2 lfs2 lcwd directory wildcard rest)) ∧
     (classifyProbe s item = (s1, Except.ok true) → ¬(wildcard = "*" ∨ item = wildcard) →
      dlLoop fuel s lfs lcwd directory wildcard (item :: rest)
        = dlLoop fuel s1 lfs lcwd directory wildcard rest)) ∧
    ((classifyProbe s item = (s1, Except.ok false) →
        ¬(wildcard = "*" ∨ globMatch wildcard.data item.data = true) →
      dlLoop fuel s lfs lcwd directory wildcard (item :: rest)
        = dlLoop fuel s1 lfs lcwd directory wildcard rest) ∧
     ((wildcard = "*" ∨ globMatch wildcard.data item.data = true)
        ↔ globMatch wildcard.data item.data = true)) := by
  refine ⟨⟨?_, ?_⟩, ?_, ?_⟩
  · intro hcp hm
    simp only [dlLoop]
    rw [dlLoopWith]
    rw [if_neg (by simp [hd1, hd2])]
    rw [hcp]
    dsimp only
    rw [if_pos hm]
  · intro hcp hm
    simp only [dlLoop]
    rw [dlLoopWith]
    rw [if_neg (by simp [hd1, hd2])]
    rw [hcp]
    dsimp only
    rw [if_neg hm]
  · intro hcp hm
    simp only [dlLoop]
    rw [dlLoopWith]
    rw [if_neg (by simp [hd1, hd2])]
    rw [hcp]
    dsimp only
    rw [if_neg (by simpa using hm)]
  · constructor
    · intro hm
      rcases hm with hm | hm
      · subst hm
        exact globMatch_star item.data
      · exact hm
    · intro hm
      exact Or.inr hm

/-- Server for the C8 witness: one enterable directory `docs`. -/
def c8Root : RNode := RNode.dir true [] []
  [("docs", RNode.dir true [] [] [])]

/-- Initial state for the C8 witness. -/
def c8St : Ftp := ⟨c8Root, [], []⟩

/-- Witness for C8: the directory `docs` is NOT entered for the glob
pattern `d*` (which would match it as a glob), because directories match
only by exact name. -/
theorem claim_C8_witness :
    dlLoop 1 c8St ⟨[], []⟩ "/home" "" "d*" ["docs"]
      = dlLoop 1 (classifyProbe c8St "docs").1 ⟨[], []⟩ "/home" "" "d*" [] :=
  ((claim_C8_download_match_rules 1 c8St (classifyProbe c8St "docs").1 ⟨[], []⟩
      "/home" "" "d*" "docs" [] (by decide) (by decide)).1.2) rfl (by decide)

theorem lookupL_writeL (l : LocalFS) (p : String) (c : List Nat) :
    lookupL (writeL l p c) p = some c := by
  rw [lookupL, writeL]
  simp

/-- C7 amended: a matched file entry is downloaded by binary retrieve into
the local path `os.path.join(os.getcwd(), directoryPart, name)` (with the
`directoryPart` component omitted when it is empty) — this equals
`cwd/directoryPart/name` only while `directoryPart` is a relative path; an
absolute `directoryPart` makes `os.path.join` discard `cwd` entirely.  The
write truncates and overwrites whatever the local path held
(second conjunct). -/
theorem claim_C7_download_path (fuel : Nat) (s s1 s2 : Ftp) (lfs : LocalFS)
    (lcwd directory wildcard item : String) (rest : List String) (content : List Nat)
    (hd1 : item ≠ ".") (hd2 : item ≠ "..")
    (hcp : classifyProbe s item = (s1, Except.ok false))
    (hm : wildcard = "*" ∨ globMatch wildcard.data item.data = true)
    (hr : ftpRetr s1 item = (s2, Except.ok content)) :
    dlLoop fuel s lfs lcwd directory wildcard (item :: rest)
      = dlLoop fuel s2
          (writeL (writeL lfs (localPathOf lcwd directory item) [])
            (localPathOf lcwd directory item) content)
          lcwd directory wildcard rest
    ∧ lookupL (writeL (writeL lfs (localPathOf lcwd directory item) [])
        (localPathOf lcwd directory item) content) (localPathOf lcwd directory item)
      = some content := by
  constructor
  · simp only [dlLoop]
    rw [dlLoopWith]
    rw [if_neg (by simp [hd1, hd2])]
    rw [hcp]
    dsimp only
    rw [if_pos (by simpa using hm)]
    rw [hr]
  · exact lookupL_writeL _ _ _

/-- Server for the C7 counterexample: remote `/pub` holds `f.txt`. -/
def c7Root : RNode := RNode.dir true [] []
  [("pub", RNode.dir true
    ["-rw-r--r-- 1 u g 2 Jan 1 2024 f.txt"] []
    [("f.txt", RNode.file true [104, 105])])]

/-- Initial state for the C7 counterexample. -/
def c7St : Ftp := ⟨c7Root, [], []⟩

/-- Counterexample to C7 as stated: downloading `/pub/*` with local
working directory `/home/user` writes the file at `/pub/f.txt` — the
absolute remote directory part replaced the local cwd in `os.path.join` —
and nothing is written at `cwd/directoryPart/name` =
`/home/user/pub/f.txt`. -/
theorem claim_C7_counterexample :
    (download_files 3 c7St ⟨[], []⟩ "/home/user" "/pub/*").2.2 = none ∧
    lookupL (download_files 3 c7St ⟨[], []⟩ "/home/user" "/pub/*").2.1 "/pub/f.txt"
      = some [104, 105] ∧
    lookupL (download_files 3 c7St ⟨[], []⟩ "/home/user" "/pub/*").2.1 "/home/user/pub/f.txt"
      = none :=
  ⟨rfl, rfl, rfl⟩

/-- Server for the C7 witness: a single readable file in the root. -/
def c7WRoot : RNode := RNode.dir true [] [] [("a.txt", RNode.file true [97])]

/-- Initial state for the C7 witness. -/
def c7WSt : Ftp := ⟨c7WRoot, [], []⟩

/-- Witness for the amended C7 theorem with an empty directory part. -/
theorem claim_C7_witness :
    dlLoop 1 c7WSt ⟨[], []⟩ "/home" "" "*" ["a.txt"]
      = dlLoop 1 (ftpRetr (ftpCwd c7WSt "a.txt").1 "a.txt").1
          (writeL (writeL ⟨[], []⟩ (localPathOf "/home" "" "a.txt") [])
            (localPathOf "/home" "" "a.txt") [97])
          "/home" "" "*" []
    ∧ lookupL (writeL (writeL ⟨[], []⟩ (localPathOf "/home" "" "a.txt") [])
        (localPathOf "/home" "" "a.txt") [97]) (localPathOf "/home" "" "a.txt")
      = some [97] :=
  claim_C7_download_path 1 c7WSt (ftpCwd c7WSt "a.txt").1
    (ftpRetr (ftpCwd c7WSt "a.txt").1 "a.txt").1 ⟨[], []⟩ "/home" "" "*" "a.txt" [] [97]
    (by decide) (by decide) rfl (Or.inl rfl) rfl

theorem splitCharOn_no_sep (sep : Char) (l : List Char) (h : sep ∉ l) :
    splitCharOn sep l = [l] := by
  induction l with
  | nil => rfl
  | cons c rest ih =>
    have hc : c ≠ sep := fun hh => h (hh ▸ List.mem_cons_self c rest)
    have hr : sep ∉ rest := fun hh => h (List.mem_cons_of_mem c hh)
    rw [splitCharOn]
    rw [if_neg hc, ih hr]
    rfl

theorem splitCharOn_sep_append (sep : Char) (h p : List Char) (hh : sep ∉ h) :
    splitCharOn sep (h ++ sep :: p) = h :: splitCharOn sep p := by
  induction h with
  | nil =>
    rw [List.nil_append, splitCharOn]
    rw [if_pos rfl]
  | cons a h2 ih =>
    have ha : a ≠ sep := fun hx => hh (hx ▸ List.mem_cons_self a h2)
    have hr : sep ∉ h2 := fun hx => hh (List.mem_cons_of_mem a hx)
    rw [List.cons_append, splitCharOn]
    rw [if_neg ha, ih hr]
    rfl

theorem isDigit_facts (c : Char) (h : c.isDigit = true) :
    c ≠ '+' ∧ c ≠ '-' ∧ c ≠ '_' ∧ isPySpace c = false := by
  refine ⟨?_, ?_, ?_, ?_⟩
  · rintro rfl; simp [Char.isDigit] at h
  · rintro rfl; simp [Char.isDigit] at h
  · rintro rfl; simp [Char.isDigit] at h
  · by_contra hs
    have hs2 : isPySpace c = true := by
      cases hx : isPySpace c
      · exact absurd hx hs
      · rfl
    rw [isPySpace] at hs2
    simp only [decide_eq_true_eq] at hs2
    rcases hs2 with rfl | rfl | rfl | rfl | rfl | rfl <;> simp [Char.isDigit] at h

theorem dropWhile_space_eq_self (l : List Char) (h : ∀ c ∈ l, isPySpace c = false) :
    l.dropWhile isPySpace = l := by
  cases l with
  | nil => rfl
  | cons c rest =>
    rw [List.dropWhile_cons]
    rw [h c (List.mem_cons_self c rest)]
    simp

theorem digitsCore_digits (l : List Char) :
    ∀ acc, (∀ c ∈ l, c.isDigit = true) →
      digitsCore l acc = some (l.foldl (fun a c => a * 10 + (c.toNat - 48)) acc) := by
  induction l with
  | nil => intro acc _; rfl
  | cons c rest ih =>
    intro acc h
    have hc := h c (List.mem_cons_self c rest)
    obtain ⟨-, -, hu, -⟩ := isDigit_facts c hc
    rw [digitsCore.eq_def]
    dsimp only
    rw [if_neg hu, if_pos hc]
    rw [ih _ (fun x hx => h x (List.mem_cons_of_mem c hx))]
    rfl

theorem pyToInt_digits (p : List Char) (hne : p ≠ []) (hd : ∀ c ∈ p, c.isDigit = true) :
    pyToInt ⟨p⟩ = some (Int.ofNat (p.foldl (fun a c => a * 10 + (c.toNat - 48)) 0)) := by
  have hns : ∀ c ∈ p, isPySpace c = false := fun c hc => (isDigit_facts c (hd c hc)).2.2.2
  have h1 : (⟨p⟩ : String).data.dropWhile isPySpace = p := dropWhile_space_eq_self p hns
  have h2 : p.reverse.dropWhile isPySpace = p.reverse :=
    dropWhile_space_eq_self p.reverse (fun c hc => hns c (List.mem_reverse.mp hc))
  rw [pyToInt, h1, h2, List.reverse_reverse]
  rcases p with _ | ⟨c, rest⟩
  · exact absurd rfl hne
  have hc := hd c (List.mem_cons_self c rest)
  obtain ⟨hp, hm, -, -⟩ := isDigit_facts c hc
  dsimp only
  rw [if_neg hp, if_neg hm, digitsStart]
  rw [if_pos hc]
  rw [digitsCore_digits rest _ (fun x hx => hd x (List.mem_cons_of_mem c hx))]
  simp

/-- C10: `parse_host_port` maps a string without a colon to the pair
(string, 21); a string `host:port` with exactly one colon parses the suffix
with `int(...)` — a decimal suffix yields `(host, int(port))` — while a
string with two or more colons (such as an IPv6 literal, third conjunct)
or a non-numeric port (fourth conjunct) raises an uncaught `ValueError`:
`split(':')` yields three or more pieces and the two-name unpacking of
source line 50 fails, or `int` rejects the suffix.  (`parse_host_port` is
called before `main`'s `try` block, so the error is uncaught.) -/
theorem claim_C10_parse_host_port (s1 : String) (s2h s2p l1 l2 l3 s4h s4p : List Char) :
    (':' ∉ s1.data → parse_host_port s1 = Except.ok (s1, 21)) ∧
    (':' ∉ s2h → ':' ∉ s2p → s2p ≠ [] → (∀ c ∈ s2p, c.isDigit = true) →
      parse_host_port ⟨s2h ++ ':' :: s2p⟩
        = Except.ok (⟨s2h⟩, Int.ofNat (s2p.foldl (fun a c => a * 10 + (c.toNat - 48)) 0))) ∧
    (':' ∉ l1 → ':' ∉ l2 →
      parse_host_port ⟨l1 ++ ':' :: (l2 ++ ':' :: l3)⟩ = Except.error PyErr.valueErr) ∧
    (':' ∉ s4h → ':' ∉ s4p → pyToInt ⟨s4p⟩ = none →
      parse_host_port ⟨s4h ++ ':' :: s4p⟩ = Except.error PyErr.valueErr) := by
  refine ⟨?_, ?_, ?_, ?_⟩
  · intro h1
    rw [parse_host_port, if_neg h1]
  · intro hh hp hne hdig
    rw [parse_host_port]
    rw [if_pos (by simp : ':' ∈ (⟨s2h ++ ':' :: s2p⟩ : String).data)]
    rw [show (⟨s2h ++ ':' :: s2p⟩ : String).data = s2h ++ ':' :: s2p from rfl]
    rw [splitCharOn_sep_append ':' s2h s2p hh]
    rw [splitCharOn_no_sep ':' s2p hp]
    dsimp only
    rw [pyToInt_digits s2p hne hdig]
  · intro h1 h2
    rw [parse_host_port]
    rw [if_pos (by simp : ':' ∈ (⟨l1 ++ ':' :: (l2 ++ ':' :: l3)⟩ : String).data)]
    rw [show (⟨l1 ++ ':' :: (l2 ++ ':' :: l3)⟩ : String).data = l1 ++ ':' :: (l2 ++ ':' :: l3)
      from rfl]
    rw [splitCharOn_sep_append ':' l1 (l2 ++ ':' :: l3) h1]
    rw [splitCharOn_sep_append ':' l2 l3 h2]
    obtain ⟨x, xs, hx⟩ : ∃ x xs, splitCharOn ':' l3 = x :: xs := by
      cases hcase : splitCharOn ':' l3 with
      | nil => exact absurd hcase (splitCharOn_ne_nil ':' l3)
      | cons x xs => exact ⟨x, xs, rfl⟩
    rw [hx]
  · intro hh hp hnone
    rw [parse_host_port]
    rw [if_pos (by simp : ':' ∈ (⟨s4h ++ ':' :: s4p⟩ : String).data)]
    rw [show (⟨s4h ++ ':' :: s4p⟩ : String).data = s4h ++ ':' :: s4p from rfl]
    rw [splitCharOn_sep_append ':' s4h s4p hh]
    rw [splitCharOn_no_sep ':' s4p hp]
    dsimp only
    rw [hnone]

/-- Witness for C10 covering all four behaviours: a bare host, a
`host:port`, the IPv6 literal `::1`, and a non-numeric port. -/
theorem claim_C10_witness :
    parse_host_port "10.0.0.1" = Except.ok ("10.0.0.1", 21) ∧
    parse_host_port ⟨"ftp.example".data ++ ':' :: "2121".data⟩
      = Except.ok (⟨"ftp.example".data⟩,
          Int.ofNat ("2121".data.foldl (fun a c => a * 10 + (c.toNat - 48)) 0)) ∧
    parse_host_port ⟨[] ++ ':' :: ([] ++ ':' :: "1".data)⟩ = Except.error PyErr.valueErr ∧
    parse_host_port ⟨"h".data ++ ':' :: "abc".data⟩ = Except.error PyErr.valueErr := by
  have h := claim_C10_parse_host_port "10.0.0.1" "ftp.example".data "2121".data
    [] [] "1".data "h".data "abc".data
  exact ⟨h.1 (by decide), h.2.1 (by decide) (by decide) (by decide) (by decide),
    h.2.2.1 (by decide) (by decide), h.2.2.2 (by decide) (by decide) (by decide)⟩
